import Mathlib

/-!
Formal model of the cordiverse/registry ecosystem crawler.

The definitions below are shallow embeddings of the crawler sources:

* `src/packages/core/src/remote.ts` — the remote scanner: windowed search
  pagination (`search`, `searchLoop`, `searchPage`), per-package version
  selection (`sortedVersions`, `selectLatest`), the per-object outcome
  dispatch of `loadEcosystem` (`processObject`), and the round-based
  worklist drain of `collect` (`drainRounds`).
* `src/unnamed/part_001` — the cache-enabled variant of the remote scanner:
  the persisted snapshot (`SearchCache`, `initCacheState`) and the
  cache-gated per-object processing (`cachedDate`, `processObjectCached`).
* `src/packages/scripts/src/sync.ts` — the synchronizer: the shortname
  conflict pass (`analyzeConflicts`) and the weighted scoring pass
  (`evaluateScore`).

Machine reals of the scoring pass are modelled over the rationals; semantic
versions are modelled as major-minor-patch triples (prerelease and build
tags are outside the model); promises are modelled by explicit result
values (`Except` for code that can throw, `Option` for code that can
return nothing).
-/

namespace RegistryCrawler

/-- Semantic version as a major-minor-patch triple. -/
structure SemVer where
  major : Nat
  minor : Nat
  patch : Nat
deriving DecidableEq

/-- Total order on semantic versions used by the semver compare calls in
remote.ts line 104: lexicographic on major, then minor, then patch. -/
def SemVer.le (a b : SemVer) : Bool :=
  decide (a.major < b.major ∨ (a.major = b.major ∧
    (a.minor < b.minor ∨ (a.minor = b.minor ∧ a.patch ≤ b.patch))))

/-- One entry of the versions map of a package, restricted to the fields the
version-selection step of remote.ts loadPackage reads. The registry marks a
deprecated version with a deprecation message; only its truthiness is ever
consulted, so it is modelled as a Bool. -/
structure RemotePackage where
  version : SemVer
  deprecated : Bool := false
deriving DecidableEq

/-- Registry metadata for one package (response of GET registry/name),
restricted to the fields loadPackage reads: the package name, the registry
declared default tags (dist-tags) and the versions map, the latter as the
value list that Object.values produces in remote.ts line 104. -/
structure Registry where
  name : String
  distTags : List (String × String)
  versions : List RemotePackage
deriving DecidableEq

/-- Descending version order between two version entries: the comparator
of remote.ts line 104, which compares b.version against a.version. -/
def versionDescends (a b : RemotePackage) : Prop :=
  SemVer.le b.version a.version = true

instance : DecidableRel versionDescends := fun a b =>
  inferInstanceAs (Decidable (SemVer.le b.version a.version = true))

instance : IsTrans RemotePackage versionDescends :=
  ⟨fun a b c h1 h2 => by
    simp only [versionDescends, SemVer.le, decide_eq_true_eq] at h1 h2 ⊢
    omega⟩

instance : IsTotal RemotePackage versionDescends :=
  ⟨fun a b => by
    simp only [versionDescends, SemVer.le, decide_eq_true_eq]
    omega⟩

/-- The versions list sorted descending by semantic version, remote.ts
line 104. The sort is modelled by insertion sort on the same comparator,
which produces a sorted permutation exactly as the source sort does. -/
def sortedVersions (reg : Registry) : List RemotePackage :=
  List.insertionSort versionDescends reg.versions

/-- Version selection of remote.ts loadPackage lines 106-109: the
activeVersions list filters the deprecated versions out of the
descending-sorted list, and its head is latest; an empty activeVersions
list makes loadPackage return nothing. -/
def selectLatest (reg : Registry) : Option RemotePackage :=
  ((sortedVersions reg).filter (fun item => !item.deprecated)).head?

/-- The package part of one search hit: the fields of object.package that
the scanner reads before fetching metadata. -/
structure SearchPackage where
  name : String
  date : String
deriving DecidableEq

/-- One object of a search response, with the classification fields the
scanners write: shortname and ecosystem (remote.ts lines 113-114), the
verified flag consumed by the synchronizer, and the ignored flag
(remote.ts lines 77, 84, 88 and sync.ts line 266). A freshly parsed hit
has none of the flags, hence the defaults. -/
structure SearchObject where
  package : SearchPackage
  shortname : String := ""
  ecosystem : String := ""
  verified : Bool := false
  ignored : Bool := false
deriving DecidableEq

/-- The three callbacks of the outcome dispatch in remote.ts loadEcosystem:
onSuccess with the resolved versions, onSkipped, onFailure with the caught
reason. -/
inductive Outcome where
  | success (versions : List RemotePackage)
  | skipped
  | failure (reason : String)
deriving DecidableEq

/-- Processing of one search object in remote.ts loadEcosystem lines 76-91:
return early on an already ignored object (no callback), otherwise call
loadPackage — modelled by its result: ok with an optional versions list, or
error for a thrown exception — and dispatch exactly one callback on the
result. -/
def processObject (load : SearchObject → Except String (Option (List RemotePackage)))
    (o : SearchObject) : Option Outcome :=
  if o.ignored then none
  else
    match load o with
    | Except.ok (some versions) => some (Outcome.success versions)
    | Except.ok none => some Outcome.skipped
    | Except.error e => some (Outcome.failure e)

/-- remote.ts loadEcosystem lines 75-91: every object of the search result
is processed, each to its own outcome. -/
def loadEcosystem (load : SearchObject → Except String (Option (List RemotePackage)))
    (objects : List SearchObject) : List (SearchObject × Option Outcome) :=
  objects.map (fun o => (o, processObject load o))

/-- One page of the search endpoint response: the reported total and the
page objects. -/
structure SearchPage where
  total : Nat
  objects : List SearchObject
deriving DecidableEq

/-- The name-keyed accumulation map of search: a JS object in insertion
order. -/
abbrev SearchDict := List (String × SearchObject)

/-- Assignment cache[key] = v on a JS object: overwrite in place when the
key exists, append otherwise. -/
def upsert (cache : SearchDict) (key : String) (v : SearchObject) : SearchDict :=
  if cache.any (fun p => p.1 == key) then
    cache.map (fun p => if p.1 == key then (key, v) else p)
  else cache ++ [(key, v)]

/-- The _search page fetch of remote.ts lines 53-62: request one page at
the given offset, key every returned object by package name into the cache,
and return the reported total. The registry is modelled by the response
function resp from request offset to page. -/
def searchPage (resp : Int → SearchPage) (cache : SearchDict) (offset : Int) :
    Nat × SearchDict :=
  let result := resp offset
  (result.total, result.objects.foldl (fun c o => upsert c o.package.name o) cache)

/-- The pagination loop of remote.ts search lines 68-70, with explicit
fuel. The loop variable starts at the unique-result count of the first
page and, while it is below the total reported by the first page, a page
is fetched at the loop variable minus margin and the loop variable
advances by step minus margin. Returns the fetched offsets in order, the
final cache, and whether the loop exited by reaching the total (true) or
by running out of fuel (false). -/
def searchLoop (resp : Int → SearchPage) (step margin : Nat) (total : Nat) :
    Nat → Int → SearchDict → List Int → List Int × SearchDict × Bool
  | 0, offset, cache, fetched =>
      if offset < (total : Int) then (fetched, cache, false) else (fetched, cache, true)
  | fuel + 1, offset, cache, fetched =>
      if offset < (total : Int) then
        searchLoop resp step margin total fuel
          (offset + ((step : Int) - (margin : Int)))
          (searchPage resp cache (offset - (margin : Int))).2
          (fetched ++ [offset - (margin : Int)])
      else (fetched, cache, true)

/-- remote.ts search lines 64-72: fetch the first page at offset 0, then
run the overlapped pagination loop starting at the unique-name count of
the cache. -/
def search (resp : Int → SearchPage) (step margin : Nat) (fuel : Nat) :
    List Int × SearchDict × Bool :=
  let first := searchPage resp [] 0
  searchLoop resp step margin first.1 fuel (first.2.length : Int) first.2 [0]

/-- The message of the TypeError raised when indexing an undefined value in
JS, as happens in part_001 line 88 when the searchCache still is the
fieldless initial object. -/
def typeErrorMessage : String := "TypeError: cannot read properties of undefined"

/-- The persisted snapshot cache.json of part_001 lines 34-38: format
version, registry URL, and the name-to-date map of the previous crawl. -/
structure SearchCache where
  version : Nat
  registry : String
  packages : List (String × String)
deriving DecidableEq

/-- Cache state of the part_001 scanner: the searchCache and the objects of
the previous index (legacyResult.objects). The initial searchCache of
part_001 line 43 is Object.create(null) — an object without any field, in
particular without packages — modelled as none; a snapshot installed by
_initCache has every field. -/
structure CacheState where
  searchCache : Option SearchCache
  legacyObjects : List SearchObject
deriving DecidableEq

/-- The state before _initCache runs, and after it when no snapshot is
trusted: the fieldless searchCache and an empty previous index. -/
def emptyCacheState : CacheState :=
  { searchCache := none, legacyObjects := [] }

/-- The snapshot format version constant of part_001 line 32. -/
def cacheFormatVersion : Nat := 1

/-- part_001 _initCache lines 109-119, modelled over the outcome of reading
and parsing cache.json and index.json (error covers an unreadable or
unparsable file). With no cacheDir, or on a read error, or when the parsed
version differs from the constant or the parsed registry differs from the
configured one, the state keeps the initial empty cache; only otherwise is
the snapshot installed. -/
def initCacheState (cacheDir : Option String) (registry : String)
    (readResult : Except String (SearchCache × List SearchObject)) : CacheState :=
  match cacheDir with
  | none => emptyCacheState
  | some _ =>
    match readResult with
    | Except.error _ => emptyCacheState
    | Except.ok (cache, legacy) =>
      if cache.version ≠ cacheFormatVersion ∨ cache.registry ≠ registry then emptyCacheState
      else { searchCache := some cache, legacyObjects := legacy }

/-- Reading this.searchCache.packages[name] in part_001 line 88: on the
fieldless initial cache the packages field is undefined and indexing it
throws a TypeError; on an installed snapshot the lookup yields the
recorded date of the name, if any. -/
def cachedDate (searchCache : Option SearchCache) (name : String) :
    Except String (Option String) :=
  match searchCache with
  | none => Except.error typeErrorMessage
  | some c => Except.ok ((c.packages.find? (fun p => p.1 == name)).map (fun p => p.2))

/-- The callbacks fired by the cache-enabled loadEcosystem of part_001: a
cached success carries the prior object of the previous index (onSuccess
with no versions argument), a fresh success carries the resolved versions,
and skip and failure mirror the plain dispatch. -/
inductive CacheOutcome where
  | successCached (legacy : SearchObject)
  | success (versions : List RemotePackage)
  | skipped
  | failure (reason : String)
deriving DecidableEq

/-- Processing of one search object in part_001 loadEcosystem lines 85-105:
compare the hit date with the snapshot date of the same name; on equality
reuse the previous classification found in the prior index (or skip when
none exists) without fetching; otherwise run loadPackage. The Bool records
whether loadPackage — the metadata fetch — ran. -/
def processObjectCached (state : CacheState)
    (load : SearchObject → Except String (Option (List RemotePackage)))
    (o : SearchObject) : CacheOutcome × Bool :=
  match cachedDate state.searchCache o.package.name with
  | Except.error e => (CacheOutcome.failure e, false)
  | Except.ok lookup =>
    if lookup = some o.package.date then
      match state.legacyObjects.find? (fun l => l.package.name == o.package.name) with
      | some legacy => (CacheOutcome.successCached legacy, false)
      | none => (CacheOutcome.skipped, false)
    else
      match load o with
      | Except.ok (some versions) => (CacheOutcome.success versions, true)
      | Except.ok none => (CacheOutcome.skipped, true)
      | Except.error e => (CacheOutcome.failure e, true)

/-- The round-based worklist drain of remote.ts collect lines 94-100: the
current tasks list is spliced out whole and processed as one round; the
sub-ecosystem tasks pushed while a round runs (remote.ts line 124,
modelled by gen) form the next round; the loop exits when a splice finds
the list empty. Returns the processed rounds in order and the tasks still
pending when the fuel runs out. -/
def drainRounds {τ : Type _} (gen : τ → List τ) :
    Nat → List τ → List (List τ) × List τ
  | 0, pending => ([], pending)
  | _ + 1, [] => ([], [])
  | fuel + 1, t :: rest =>
      let res := drainRounds gen fuel ((t :: rest).flatMap gen)
      ((t :: rest) :: res.1, res.2)

/-- The shortname conflict pass of sync.ts analyze lines 229-268: the set
of shortnames claimed by verified objects is collected (line 256), then
every object that is not verified and whose shortname is in the set gets
ignored set to true (lines 263-267); every other object is left unchanged. -/
def analyzeConflicts (objects : List SearchObject) : List SearchObject :=
  let shortnames := (objects.filter (fun o => o.verified)).map (fun o => o.shortname)
  objects.map (fun o =>
    if o.verified || !(shortnames.contains o.shortname) then o
    else { o with ignored := true })

/-- The three scoring subjects of sync.ts line 89. -/
inductive Subject where
  | maintenance
  | popularity
  | quality
deriving DecidableEq

/-- Iteration order of Object.keys(weights) over the weights record of
sync.ts lines 91-95. -/
def subjectKeys : List Subject :=
  [Subject.maintenance, Subject.popularity, Subject.quality]

/-- The fixed weights of sync.ts lines 91-95, over the rationals. -/
def weights : Subject → ℚ
  | Subject.maintenance => 3 / 10
  | Subject.popularity => 5 / 10
  | Subject.quality => 2 / 10

/-- The score fields written by the scoring block: the per-subject detail,
the accumulated final, and the rescaled rating. -/
structure ScoreResult where
  detail : Subject → ℚ
  final : ℚ
  rating : ℚ

/-- The scoring block of sync.ts bundleAll lines 356-368: each subject task
is awaited inside its own try, a rejected task (none) substitutes the
fallback value 0, the detail is recorded, final accumulates weight times
value from 0 over the subjects, and the rating rescales the final. -/
def evaluateScore (tasks : Subject → Option ℚ) : ScoreResult :=
  let value := fun s => (tasks s).getD 0
  let final := subjectKeys.foldl (fun acc s => acc + weights s * value s) 0
  { detail := value, final := final, rating := (final - 3 / 10) * 10 }

/-- The metadata request path of remote.ts loadPackage line 103: a slash
followed by the package name of the hit, resolved against the registry
base URL. -/
def requestPathCore (o : SearchObject) : String :=
  "/" ++ o.package.name

/-- The metadata request path of part_001 loadPackage lines 131-133. The
template interpolates the bare identifier name, which is not bound inside
loadPackage (the destructuring of object.package happens only inside
loadEcosystem), so it resolves to the global binding — independent of the
hit being processed. -/
def requestPathCached (globalName : String) (_object : SearchObject) : String :=
  "/" ++ globalName

/-- Witness inputs: the version-selection example of the spec, a registry
with only deprecated versions, concrete hits, caches and worklists. -/
def pkg100 : RemotePackage := { version := { major := 1, minor := 0, patch := 0 } }

def pkg110 : RemotePackage := { version := { major := 1, minor := 1, patch := 0 }, deprecated := true }

def pkg200 : RemotePackage := { version := { major := 2, minor := 0, patch := 0 } }

def exampleRegistry : Registry :=
  { name := "example", distTags := [("latest", "2.0.0")], versions := [pkg100, pkg110, pkg200] }

def allDeprecatedRegistry : Registry :=
  { name := "example", distTags := [],
    versions := [{ pkg100 with deprecated := true }, { pkg200 with deprecated := true }] }

def fooHit : SearchObject := { package := { name := "foo", date := "2024-06-01" } }

def legacyFoo : SearchObject :=
  { package := { name := "foo", date := "2024-05-01" }, shortname := "foo", verified := true }

def goodCache : SearchCache :=
  { version := 1, registry := "https://registry.npmjs.org",
    packages := [("foo", "2024-05-01"), ("bar", "2024-05-01")] }

def staleCache : SearchCache := { goodCache with version := 0 }

def cachedState : CacheState :=
  { searchCache := some goodCache, legacyObjects := [legacyFoo] }

def fooHitUnchanged : SearchObject := { package := { name := "foo", date := "2024-05-01" } }

def barHitUnchanged : SearchObject := { package := { name := "bar", date := "2024-05-01" } }

def c4Hits : List SearchObject :=
  (List.range 250).map (fun i => { package := { name := String.mk (List.replicate i 'a'), date := "" } })

def c4Resp : Int → SearchPage := fun offset =>
  if offset = 0 then { total := 300, objects := c4Hits } else { total := 300, objects := [] }

def stuckResp : Int → SearchPage := fun _ => { total := 1, objects := [] }

def onePageResp : Int → SearchPage := fun _ => { total := 1, objects := [] }

def genEx : Nat → List Nat := fun n => if n = 0 then [1] else []

def confA : SearchObject :=
  { package := { name := "pkg-a", date := "" }, shortname := "foo", ecosystem := "INIT" }

def confB : SearchObject :=
  { package := { name := "pkg-b", date := "" }, shortname := "foo", ecosystem := "INIT" }

/-! Helper lemmas. -/

theorem semVer_le_refl (a : SemVer) : SemVer.le a a = true := by
  simp [SemVer.le]

theorem mem_sortedVersions {reg : Registry} {x : RemotePackage} :
    x ∈ sortedVersions reg ↔ x ∈ reg.versions := by
  simp [sortedVersions, List.mem_insertionSort]

theorem sortedVersions_sorted (reg : Registry) :
    List.Sorted versionDescends (sortedVersions reg) :=
  List.sorted_insertionSort versionDescends reg.versions

/-! Claim theorems. -/

/-- C1: for every package whose registry metadata loadPackage fetches, the
selected latest version is a non-deprecated version of the metadata that is
highest in the semantic-version order among all non-deprecated versions;
the selection reads nothing from the registry-declared dist-tags (replacing
them never changes the result); and when every version is deprecated the
selection is empty — in which case loadEcosystem dispatches the object to
onSkipped, not to onFailure. -/
theorem loadPackage_version_selection (reg : Registry) :
    (∀ v, selectLatest reg = some v →
      v.deprecated = false ∧ v ∈ reg.versions ∧
        ∀ w ∈ reg.versions, w.deprecated = false → SemVer.le w.version v.version = true)
    ∧ (selectLatest reg = none ↔ ∀ w ∈ reg.versions, w.deprecated = true)
    ∧ (∀ tags, selectLatest { reg with distTags := tags } = selectLatest reg)
    ∧ (∀ o : SearchObject, o.ignored = false →
        processObject (fun _ => Except.ok none) o = some Outcome.skipped) := by
  refine ⟨?_, ⟨?_, ?_⟩, ?_, ?_⟩
  · intro v hv
    unfold selectLatest at hv
    cases hfil : (sortedVersions reg).filter (fun item => !item.deprecated) with
    | nil => rw [hfil] at hv; simp at hv
    | cons x t =>
      rw [hfil] at hv
      simp only [List.head?_cons, Option.some.injEq] at hv
      subst hv
      have hxmem : x ∈ (sortedVersions reg).filter (fun item => !item.deprecated) := by
        rw [hfil]; exact List.mem_cons_self x t
      have hx2 := List.mem_filter.mp hxmem
      refine ⟨by simpa using hx2.2, mem_sortedVersions.mp hx2.1, ?_⟩
      intro w hw hwdep
      have hwmem : w ∈ (sortedVersions reg).filter (fun item => !item.deprecated) :=
        List.mem_filter.mpr ⟨mem_sortedVersions.mpr hw, by simp [hwdep]⟩
      rw [hfil] at hwmem
      rcases List.mem_cons.mp hwmem with h | h
      · subst h; exact semVer_le_refl _
      · have hpair : List.Pairwise versionDescends (x :: t) := by
          rw [← hfil]
          exact List.Pairwise.sublist (List.filter_sublist _) (sortedVersions_sorted reg)
        exact List.rel_of_sorted_cons hpair w h
  · intro h w hw
    unfold selectLatest at h
    rw [List.head?_eq_none_iff, List.filter_eq_nil_iff] at h
    simpa using h w (mem_sortedVersions.mpr hw)
  · intro h
    unfold selectLatest
    rw [List.head?_eq_none_iff, List.filter_eq_nil_iff]
    intro a ha
    simpa using h a (mem_sortedVersions.mp ha)
  · intro tags
    rfl
  · intro o ho
    simp [processObject, ho]

/-- Witness for C1: on the version list of the spec example (1.0.0,
1.1.0 deprecated, 2.0.0 with a dist-tag pointing at 2.0.0) the selection
picks 2.0.0 and the theorem applies to it; on the all-deprecated registry
the selection is empty; and an object whose loadPackage returned nothing
is dispatched to onSkipped. -/
theorem loadPackage_version_selection_witness :
    (selectLatest exampleRegistry = some pkg200
      ∧ pkg200.deprecated = false ∧ pkg200 ∈ exampleRegistry.versions
      ∧ ∀ w ∈ exampleRegistry.versions, w.deprecated = false →
          SemVer.le w.version pkg200.version = true)
    ∧ selectLatest allDeprecatedRegistry = none
    ∧ processObject (fun _ => Except.ok none) fooHit = some Outcome.skipped := by
  have h1 := loadPackage_version_selection exampleRegistry
  have h2 := loadPackage_version_selection allDeprecatedRegistry
  have hsel : selectLatest exampleRegistry = some pkg200 := by decide
  exact ⟨⟨hsel, h1.1 pkg200 hsel⟩, h2.2.1.2 (by decide), h1.2.2.2 fooHit (by decide)⟩

/-- C6: per search object, the dispatch of loadEcosystem is total and
exclusive — for every object of the result list an entry is produced, an
object with a clear ignored flag gets exactly one outcome, and the outcome
constructor is success exactly when loadPackage returned versions, skipped
exactly when it returned nothing, and failure exactly when it threw.
Moreover the outcome of one object depends only on the load result of that
object, so an exception on one object cannot change or remove the
processing of a sibling. -/
theorem loadEcosystem_outcome_dispatch
    (load : SearchObject → Except String (Option (List RemotePackage)))
    (objects : List SearchObject) :
    (loadEcosystem load objects).length = objects.length
    ∧ (∀ i : Nat, (loadEcosystem load objects)[i]? =
        (objects[i]?).map (fun o => (o, processObject load o)))
    ∧ (∀ (load2 : SearchObject → Except String (Option (List RemotePackage)))
        (o : SearchObject), load o = load2 o →
          processObject load o = processObject load2 o)
    ∧ (∀ o : SearchObject, o.ignored = false →
        (processObject load o).isSome = true
        ∧ (∀ vs, processObject load o = some (Outcome.success vs) ↔
            load o = Except.ok (some vs))
        ∧ (processObject load o = some Outcome.skipped ↔ load o = Except.ok none)
        ∧ (∀ e, processObject load o = some (Outcome.failure e) ↔
            load o = Except.error e)) := by
  refine ⟨by simp [loadEcosystem], ?_, ?_, ?_⟩
  · intro i
    simp [loadEcosystem, List.getElem?_map]
  · intro load2 o h
    simp [processObject, h]
  · intro o ho
    have hdef : processObject load o =
        match load o with
        | Except.ok (some versions) => some (Outcome.success versions)
        | Except.ok none => some Outcome.skipped
        | Except.error e => some (Outcome.failure e) := by
      simp [processObject, ho]
    refine ⟨?_, ?_, ?_, ?_⟩
    · rw [hdef]; cases hl : load o with
      | ok vo => cases vo <;> simp
      | error e => simp
    · intro vs; rw [hdef]; cases hl : load o with
      | ok vo => cases vo <;> simp
      | error e => simp
    · rw [hdef]; cases hl : load o with
      | ok vo => cases vo <;> simp
      | error e => simp
    · intro e; rw [hdef]; cases hl : load o with
      | ok vo => cases vo <;> simp
      | error e2 => simp

/-- Witness for C6: a hit whose loadPackage throws a timeout gets exactly
the failure outcome. -/
theorem loadEcosystem_outcome_dispatch_witness :
    fooHit.ignored = false
    ∧ (processObject (fun _ => Except.error "timeout") fooHit).isSome = true
    ∧ processObject (fun _ => Except.error "timeout") fooHit
        = some (Outcome.failure "timeout") := by
  have h := loadEcosystem_outcome_dispatch (fun _ => Except.error "timeout") [fooHit]
  have hd := h.2.2.2 fooHit (by decide)
  exact ⟨by decide, hd.1, (hd.2.2.2 "timeout").mpr rfl⟩

/-- C2: when the snapshot date recorded for the name of a hit equals the
freshly probed date of the hit, the cache-enabled loadEcosystem does not
run loadPackage (no metadata fetch, whatever load would do): it forwards
the prior object found in the previous index unchanged through onSuccess,
or dispatches the hit to onSkipped when the previous index has no record
of that name. -/
theorem loadEcosystem_cache_short_circuit (state : CacheState)
    (load : SearchObject → Except String (Option (List RemotePackage)))
    (o : SearchObject)
    (hdate : cachedDate state.searchCache o.package.name
        = Except.ok (some o.package.date)) :
    (processObjectCached state load o).2 = false
    ∧ (∀ load2, processObjectCached state load o = processObjectCached state load2 o)
    ∧ (∀ legacy,
        state.legacyObjects.find? (fun l => l.package.name == o.package.name) = some legacy →
          (processObjectCached state load o).1 = CacheOutcome.successCached legacy
          ∧ legacy ∈ state.legacyObjects ∧ legacy.package.name = o.package.name)
    ∧ (state.legacyObjects.find? (fun l => l.package.name == o.package.name) = none →
        (processObjectCached state load o).1 = CacheOutcome.skipped) := by
  have hmain : ∀ (ld : SearchObject → Except String (Option (List RemotePackage))),
      processObjectCached state ld o =
        (match state.legacyObjects.find? (fun l => l.package.name == o.package.name) with
         | some legacy => (CacheOutcome.successCached legacy, false)
         | none => (CacheOutcome.skipped, false)) := by
    intro ld
    unfold processObjectCached
    rw [hdate]
    simp
  refine ⟨?_, ?_, ?_, ?_⟩
  · rw [hmain load]
    cases state.legacyObjects.find? (fun l => l.package.name == o.package.name) <;> simp
  · intro load2
    rw [hmain load, hmain load2]
  · intro legacy hf
    rw [hmain load, hf]
    exact ⟨rfl, List.mem_of_find?_eq_some hf, by simpa using List.find?_some hf⟩
  · intro hf
    rw [hmain load, hf]

/-- Witness for C2: with the installed snapshot, the unchanged foo hit is
served from the cache (prior object forwarded, no fetch even though load
would throw) and the unchanged bar hit, which has a snapshot date but no
prior record, is skipped. -/
theorem loadEcosystem_cache_short_circuit_witness :
    (processObjectCached cachedState (fun _ => Except.error "network") fooHitUnchanged).2 = false
    ∧ (processObjectCached cachedState (fun _ => Except.error "network") fooHitUnchanged).1
        = CacheOutcome.successCached legacyFoo
    ∧ (processObjectCached cachedState (fun _ => Except.error "network") barHitUnchanged).1
        = CacheOutcome.skipped := by
  have h1 := loadEcosystem_cache_short_circuit cachedState
    (fun _ => Except.error "network") fooHitUnchanged (by rfl)
  have h2 := loadEcosystem_cache_short_circuit cachedState
    (fun _ => Except.error "network") barHitUnchanged (by rfl)
  exact ⟨h1.1, (h1.2.2.1 legacyFoo (by decide)).1, h2.2.2.2 (by decide)⟩

/-- C8 (code-bug evidence): _initCache trusts a snapshot exactly when it is
readable, its format version equals the constant and its registry equals
the configured one, and in every other case it keeps the initial state
without failing; but that initial state is the fieldless searchCache, so a
subsequent hit is not re-fetched at all — reading packages of the
fieldless cache throws, and the hit is dispatched to onFailure instead of
being crawled. -/
theorem snapshot_trust_empty_cache_behavior :
    initCacheState none "https://registry.npmjs.org"
        (Except.ok (goodCache, [legacyFoo])) = emptyCacheState
    ∧ initCacheState (some "/cache") "https://registry.npmjs.org"
        (Except.error "unreadable") = emptyCacheState
    ∧ initCacheState (some "/cache") "https://registry.npmjs.org"
        (Except.ok (goodCache, [legacyFoo]))
        = { searchCache := some goodCache, legacyObjects := [legacyFoo] }
    ∧ initCacheState (some "/cache") "https://registry.npmjs.org"
        (Except.ok (staleCache, [legacyFoo])) = emptyCacheState
    ∧ initCacheState (some "/cache") "https://registry.example.org"
        (Except.ok (goodCache, [legacyFoo])) = emptyCacheState
    ∧ processObjectCached emptyCacheState (fun _ => Except.ok (some [pkg100])) fooHit
        = (CacheOutcome.failure typeErrorMessage, false) := by
  refine ⟨by decide, by decide, by decide, by decide, by decide, by decide⟩

/-- C7 (code-bug evidence): the core scanner requests the metadata of a hit
at slash followed by the package name of the hit, but the cache-enabled
loadPackage of part_001 interpolates the out-of-scope identifier name, so
its request path is the same for every hit and differs from the path the
claim requires. -/
theorem loadPackage_request_path_global_name :
    requestPathCore fooHit = "/foo"
    ∧ (∀ (g : String) (o o2 : SearchObject), requestPathCached g o = requestPathCached g o2)
    ∧ requestPathCached "undefined" fooHit = "/undefined"
    ∧ requestPathCached "undefined" fooHit ≠ requestPathCore fooHit := by
  exact ⟨rfl, fun g o o2 => rfl, rfl, by decide⟩

/-- C3 counterexample: two successfully classified packages of the same
ecosystem share the shortname foo, neither is verified; the claim says the
one without precedence must end with ignored set, but the conflict pass of
sync.ts leaves both unmarked. -/
theorem analyze_conflict_counterexample :
    confA.shortname = confB.shortname
    ∧ confA.ecosystem = confB.ecosystem
    ∧ confA.verified = false ∧ confB.verified = false
    ∧ (analyzeConflicts [confA, confB]).map (fun o => o.ignored) = [false, false] := by
  decide

/-- C3 amended: in the conflict pass, a verified package is never changed;
an unverified package whose shortname is also claimed by some verified
package of the catalog (the pass does not scope by ecosystem) ends with
ignored set to true; and when no verified package claims the shortname the
package is left unchanged — no first-classified precedence is applied. -/
theorem analyze_conflict_amended (objects : List SearchObject) (i : Nat) (o : SearchObject)
    (ho : objects[i]? = some o) :
    (o.verified = true → (analyzeConflicts objects)[i]? = some o)
    ∧ (o.verified = false →
        (∃ v ∈ objects, v.verified = true ∧ v.shortname = o.shortname) →
        (analyzeConflicts objects)[i]? = some { o with ignored := true })
    ∧ (o.verified = false →
        (∀ v ∈ objects, v.verified = true → v.shortname ≠ o.shortname) →
        (analyzeConflicts objects)[i]? = some o) := by
  have hmap : (analyzeConflicts objects)[i]? = some (
      if o.verified ||
          !(((objects.filter (fun x => x.verified)).map (fun x => x.shortname)).contains
            o.shortname) then o
      else { o with ignored := true }) := by
    simp [analyzeConflicts, List.getElem?_map, ho]
  refine ⟨?_, ?_, ?_⟩
  · intro hv
    have hcond : (o.verified ||
        !(((objects.filter (fun x => x.verified)).map (fun x => x.shortname)).contains
          o.shortname)) = true := by
      rw [hv]
      rfl
    rw [hmap, hcond]
    rfl
  · intro hv hex
    obtain ⟨v, hvmem, hvver, hvshort⟩ := hex
    have hmem : o.shortname ∈ (objects.filter (fun x => x.verified)).map (fun x => x.shortname) :=
      List.mem_map.mpr ⟨v, List.mem_filter.mpr ⟨hvmem, by simp [hvver]⟩, hvshort⟩
    have hcont : ((objects.filter (fun x => x.verified)).map (fun x => x.shortname)).contains
        o.shortname = true := by
      simpa using hmem
    have hcond : (o.verified ||
        !(((objects.filter (fun x => x.verified)).map (fun x => x.shortname)).contains
          o.shortname)) = false := by
      rw [hv, hcont]
      rfl
    rw [hmap, hcond]
    rfl
  · intro hv hnone
    cases hc : ((objects.filter (fun x => x.verified)).map (fun x => x.shortname)).contains
        o.shortname with
    | false =>
      have hcond : (o.verified ||
          !(((objects.filter (fun x => x.verified)).map (fun x => x.shortname)).contains
            o.shortname)) = true := by
        rw [hv, hc]
        rfl
      rw [hmap, hcond]
      rfl
    | true =>
      exfalso
      have hmem : o.shortname ∈ (objects.filter (fun x => x.verified)).map
          (fun x => x.shortname) := by
        simpa using hc
      obtain ⟨v, hvf, hvs⟩ := List.mem_map.mp hmem
      obtain ⟨hvmem, hvver⟩ := List.mem_filter.mp hvf
      exact hnone v hvmem (by simpa using hvver) hvs

/-- Witness for C3 amended: the verified claim legacyFoo makes the
unverified sharer confA end ignored, while with no verified claim confA is
left untouched. -/
theorem analyze_conflict_amended_witness :
    (analyzeConflicts [legacyFoo, confA])[1]? = some { confA with ignored := true }
    ∧ (analyzeConflicts [confA, confB])[0]? = some confA := by
  have h1 := analyze_conflict_amended [legacyFoo, confA] 1 confA (by decide)
  have h2 := analyze_conflict_amended [confA, confB] 0 confA (by decide)
  exact ⟨h1.2.1 (by decide) ⟨legacyFoo, by decide, by decide, by decide⟩,
    h2.2.2 (by decide) (by decide)⟩

/-- C9: the scoring block always produces final as the fixed weighted sum
0.3 maintenance + 0.5 popularity + 0.2 quality of the per-subject values,
where a rejected evaluator task contributes its substituted neutral value
0; the rating rescales the final as (final - 0.3) times 10; the recorded
detail of a subject is exactly its value (so a rejected task yields 0
there); and failing one evaluator only removes its own weighted term from
the final — the other subjects keep contributing and the final is still
computed. -/
theorem bundleAll_score_weights (tasks : Subject → Option ℚ) :
    (evaluateScore tasks).final =
        3 / 10 * ((tasks Subject.maintenance).getD 0)
        + 5 / 10 * ((tasks Subject.popularity).getD 0)
        + 2 / 10 * ((tasks Subject.quality).getD 0)
    ∧ (evaluateScore tasks).rating = ((evaluateScore tasks).final - 3 / 10) * 10
    ∧ (∀ s, (evaluateScore tasks).detail s = (tasks s).getD 0)
    ∧ (∀ s, (evaluateScore (Function.update tasks s none)).final
        = (evaluateScore tasks).final - weights s * ((tasks s).getD 0)) := by
  refine ⟨?_, rfl, fun s => rfl, ?_⟩
  · simp [evaluateScore, subjectKeys, weights]
    try ring
  · intro s
    cases s <;>
      simp [evaluateScore, subjectKeys, weights, Function.update] <;>
      try ring

/-! Helper lemmas for the pagination loop and the worklist drain. -/

theorem searchLoop_exit (resp : Int → SearchPage) (step margin total fuel : Nat)
    (offset : Int) (cache : SearchDict) (fetched : List Int)
    (h : (total : Int) ≤ offset) :
    searchLoop resp step margin total fuel offset cache fetched = (fetched, cache, true) := by
  have hnl : ¬ (offset < (total : Int)) := not_lt.mpr h
  cases fuel <;> simp [searchLoop, hnl]

theorem searchLoop_bounded (resp : Int → SearchPage) (step margin total fuel : Nat) :
    ∀ (offset : Int) (cache : SearchDict) (fetched : List Int),
      (total : Int) ≤ offset + (fuel : Int) * ((step : Int) - (margin : Int)) →
      (searchLoop resp step margin total fuel offset cache fetched).2.2 = true
      ∧ (searchLoop resp step margin total fuel offset cache fetched).1.length
          ≤ fetched.length + fuel := by
  induction fuel with
  | zero =>
    intro offset cache fetched h
    have h0 : (total : Int) ≤ offset := by simpa using h
    rw [searchLoop_exit resp step margin total 0 offset cache fetched h0]
    exact ⟨rfl, by simp⟩
  | succ fuel ih =>
    intro offset cache fetched h
    by_cases hlt : offset < (total : Int)
    · have h2 : (total : Int) ≤ (offset + ((step : Int) - (margin : Int)))
          + (fuel : Int) * ((step : Int) - (margin : Int)) := by
        have hc : ((fuel + 1 : Nat) : Int) = (fuel : Int) + 1 := by push_cast; ring
        rw [hc] at h
        linarith
      have hrec := ih (offset + ((step : Int) - (margin : Int)))
        ((searchPage resp cache (offset - (margin : Int))).2)
        (fetched ++ [offset - (margin : Int)]) h2
      rw [searchLoop, if_pos hlt]
      refine ⟨hrec.1, ?_⟩
      have hlen := hrec.2
      simp only [List.length_append, List.length_cons, List.length_nil] at hlen
      omega
    · have h0 := not_lt.mp hlt
      rw [searchLoop_exit resp step margin total (fuel + 1) offset cache fetched h0]
      exact ⟨rfl, by simp⟩

theorem searchLoop_stuck (fuel : Nat) :
    ∀ (cache : SearchDict) (fetched : List Int),
      (searchLoop stuckResp 1 1 1 fuel 0 cache fetched).2.2 = false := by
  induction fuel with
  | zero =>
    intro cache fetched
    rw [searchLoop, if_pos (by norm_num : (0 : Int) < ((1 : Nat) : Int))]
  | succ fuel ih =>
    intro cache fetched
    rw [searchLoop, if_pos (by norm_num : (0 : Int) < ((1 : Nat) : Int))]
    have harg : (0 : Int) + (((1 : Nat) : Int) - ((1 : Nat) : Int)) = 0 := by norm_num
    rw [harg]
    exact ih _ _

theorem length_foldl_upsert (objs : List SearchObject) :
    ∀ (cache : SearchDict),
      (objs.map (fun o => o.package.name)).Nodup →
      (∀ o ∈ objs, ∀ p ∈ cache, p.1 ≠ o.package.name) →
      (objs.foldl (fun c o => upsert c o.package.name o) cache).length
        = cache.length + objs.length := by
  induction objs with
  | nil => intro cache _ _; simp
  | cons o rest ih =>
    intro cache hnodup hfresh
    have hany : cache.any (fun p => p.1 == o.package.name) = false := by
      rw [List.any_eq_false]
      intro p hp
      simpa using hfresh o (List.mem_cons_self o rest) p hp
    have hup : upsert cache o.package.name o = cache ++ [(o.package.name, o)] := by
      simp [upsert, hany]
    rw [List.map_cons, List.nodup_cons] at hnodup
    have htail := ih (cache ++ [(o.package.name, o)]) hnodup.2 ?_
    · simp only [List.foldl_cons, hup, htail]
      simp only [List.length_append, List.length_cons, List.length_nil]
      omega
    · intro o2 ho2 p hp
      rcases List.mem_append.mp hp with hin | hin
      · exact hfresh o2 (List.mem_cons_of_mem _ ho2) p hin
      · have hp2 : p = (o.package.name, o) := by simpa using hin
        subst hp2
        intro heq
        exact hnodup.1 (List.mem_map.mpr ⟨o2, ho2, heq.symm⟩)

theorem c4HitsCount : (searchPage c4Resp [] 0).2.length = 250 := by
  have hnodup : (c4Hits.map (fun o => o.package.name)).Nodup := by
    rw [c4Hits, List.map_map]
    refine List.Nodup.map_on ?_ (List.nodup_range 250)
    intro x _ y _ hf
    have hlen := congrArg String.length hf
    simpa [String.length_mk, List.length_replicate] using hlen
  have hpage : (searchPage c4Resp [] 0).2
      = c4Hits.foldl (fun c o => upsert c o.package.name o) [] := by
    simp [searchPage, c4Resp]
  rw [hpage, length_foldl_upsert c4Hits [] hnodup (by intro o _ p hp; simp at hp)]
  simp [c4Hits]

theorem drainRounds_head {τ : Type _} (gen : τ → List τ) (fuel : Nat) (pending : List τ)
    (r : List τ) (h : (drainRounds gen fuel pending).1.head? = some r) : r = pending := by
  cases fuel with
  | zero => simp [drainRounds] at h
  | succ fuel =>
    cases pending with
    | nil => simp [drainRounds] at h
    | cons t rest =>
      simp [drainRounds] at h
      exact h.symm

theorem drainRounds_nil {τ : Type _} (gen : τ → List τ) (fuel : Nat) (pending : List τ)
    (h : drainRounds gen fuel pending = ([], [])) : pending = [] := by
  cases fuel with
  | zero => simpa [drainRounds] using congrArg Prod.snd h
  | succ fuel =>
    cases pending with
    | nil => rfl
    | cons t rest =>
      have hfst := congrArg Prod.fst h
      simp [drainRounds] at hfst

theorem getLast?_cons_of_ne_nil {α : Type _} {a : α} {l : List α} (h : l ≠ []) :
    (a :: l).getLast? = l.getLast? := by
  cases l with
  | nil => exact absurd rfl h
  | cons b l2 => exact List.getLast?_cons_cons

/-- C4: whenever the first search page reports a total of 300 and fills the
cache with 250 distinct package names, the pagination with step 250 and
margin 25 performs exactly two page fetches, at offsets 0 and 225, and the
loop exits normally. -/
theorem search_two_pages (resp : Int → SearchPage) (fuel : Nat)
    (htotal : (resp 0).total = 300)
    (hcount : (searchPage resp [] 0).2.length = 250) :
    (search resp 250 25 (fuel + 1)).1 = [0, 225]
    ∧ (search resp 250 25 (fuel + 1)).2.2 = true := by
  have hsp : (searchPage resp [] 0).1 = 300 := htotal
  have hbody : search resp 250 25 (fuel + 1)
      = searchLoop resp 250 25 300 (fuel + 1) ((250 : Nat) : Int)
          (searchPage resp [] 0).2 [0] := by
    simp only [search]
    rw [hsp, hcount]
  rw [hbody]
  rw [searchLoop, if_pos (by norm_num : ((250 : Nat) : Int) < ((300 : Nat) : Int))]
  rw [searchLoop_exit resp 250 25 300 fuel _ _ _ (by norm_num)]
  norm_num

set_option maxRecDepth 8000 in
/-- Witness for C4: a concrete registry whose first page reports 300 and
returns 250 distinct names makes the search fetch exactly offsets 0 and
225. -/
theorem search_two_pages_witness :
    (search c4Resp 250 25 1).1 = [0, 225] ∧ (search c4Resp 250 25 1).2.2 = true := by
  have h := search_two_pages c4Resp 0 (by rfl) c4HitsCount
  exact h

/-- C10: with margin below step, the pagination loop started with fuel
equal to the ceiling of total over step minus margin exits normally — so
at most one plus that ceiling many page fetches happen, whatever objects
the registry returns; with margin equal to step, the loop makes no
progress and never exits for any amount of fuel on a registry reporting a
positive total and returning no objects. -/
theorem search_pagination_termination (resp : Int → SearchPage) (step margin : Nat)
    (h : margin < step) :
    ((search resp step margin
        (((resp 0).total + (step - margin) - 1) / (step - margin))).2.2 = true
      ∧ (search resp step margin
          (((resp 0).total + (step - margin) - 1) / (step - margin))).1.length
          ≤ 1 + ((resp 0).total + (step - margin) - 1) / (step - margin))
    ∧ (∀ fuel, (search stuckResp 1 1 fuel).2.2 = false) := by
  constructor
  · have hdpos : 0 < step - margin := by omega
    have hqd : (resp 0).total ≤ (((resp 0).total + (step - margin) - 1) / (step - margin))
        * (step - margin) := by
      rcases Nat.eq_zero_or_pos (resp 0).total with h0 | h0
      · simp [h0]
      · have h2 : (resp 0).total + (step - margin) - 1
            < ((((resp 0).total + (step - margin) - 1) / (step - margin)) + 1)
              * (step - margin) :=
          (Nat.div_lt_iff_lt_mul hdpos).mp (Nat.lt_succ_self _)
        have h3 : ((((resp 0).total + (step - margin) - 1) / (step - margin)) + 1)
            * (step - margin)
            = (((resp 0).total + (step - margin) - 1) / (step - margin)) * (step - margin)
              + (step - margin) := by ring
        rw [h3] at h2
        set A := (((resp 0).total + (step - margin) - 1) / (step - margin)) * (step - margin)
          with hA
        omega
    have hdc : ((step : Int) - (margin : Int)) = ((step - margin : Nat) : Int) := by
      push_cast [Nat.cast_sub (le_of_lt h)]
      ring
    have harg : ((resp 0).total : Int)
        ≤ ((searchPage resp [] 0).2.length : Int)
          + ((((resp 0).total + (step - margin) - 1) / (step - margin) : Nat) : Int)
            * ((step : Int) - (margin : Int)) := by
      rw [hdc]
      have h2 : ((resp 0).total : Int)
          ≤ ((((resp 0).total + (step - margin) - 1) / (step - margin) : Nat) : Int)
            * ((step - margin : Nat) : Int) := by
        exact_mod_cast hqd
      have h3 : (0 : Int) ≤ ((searchPage resp [] 0).2.length : Int) :=
        Int.natCast_nonneg _
      linarith
    have hb := searchLoop_bounded resp step margin (resp 0).total
      (((resp 0).total + (step - margin) - 1) / (step - margin))
      ((searchPage resp [] 0).2.length : Int) (searchPage resp [] 0).2 [0] harg
    constructor
    · simp only [search]
      exact hb.1
    · simp only [search]
      have := hb.2
      simpa using this
  · intro fuel
    simp only [search]
    exact searchLoop_stuck fuel _ _

/-- Witness for C10: with step 2 and margin 1 on a one-entry registry the
search exits after at most two fetches; with step and margin both 1 the
loop reports fuel exhaustion at every fuel, here at fuel 5. -/
theorem search_pagination_termination_witness :
    ((search onePageResp 2 1 1).2.2 = true ∧ (search onePageResp 2 1 1).1.length ≤ 2)
    ∧ (search stuckResp 1 1 5).2.2 = false := by
  have h := search_pagination_termination onePageResp 2 1 (by norm_num)
  have e : ((onePageResp 0).total + (2 - 1) - 1) / (2 - 1) = 1 := by rfl
  refine ⟨⟨?_, ?_⟩, h.2 5⟩
  · have h1 := h.1.1
    rw [e] at h1
    exact h1
  · have h2 := h.1.2
    rw [e] at h2
    simpa using h2

/-- C5: in the round-based drain of collect, the first round is exactly the
seeded worklist; every batch of tasks appended while round i runs is
exactly round i plus one — so every appended task is processed in the next
round, once, and nothing else is processed; and when the run completes
(nothing left pending), either nothing was ever pending or the last
processed round appended no task — a drain round left the worklist
empty. -/
theorem collect_worklist_rounds {τ : Type _} (gen : τ → List τ) (fuel : Nat) :
    ∀ seed : List τ,
      (seed ≠ [] → fuel ≠ 0 → (drainRounds gen fuel seed).1.head? = some seed)
      ∧ (∀ (i : Nat) (r1 r2 : List τ), (drainRounds gen fuel seed).1[i]? = some r1 →
          (drainRounds gen fuel seed).1[i + 1]? = some r2 → r2 = r1.flatMap gen)
      ∧ ((drainRounds gen fuel seed).2 = [] →
          (drainRounds gen fuel seed).1 = []
          ∨ ∃ last, (drainRounds gen fuel seed).1.getLast? = some last
              ∧ last.flatMap gen = []) := by
  induction fuel with
  | zero =>
    intro seed
    refine ⟨fun _ hf => absurd rfl hf, ?_, ?_⟩
    · intro i r1 r2 h1 _
      simp [drainRounds] at h1
    · intro _
      left
      simp [drainRounds]
  | succ fuel ih =>
    intro seed
    cases seed with
    | nil =>
      refine ⟨fun hs _ => absurd rfl hs, ?_, ?_⟩
      · intro i r1 r2 h1 _
        simp [drainRounds] at h1
      · intro _
        left
        simp [drainRounds]
    | cons t rest =>
      have hd : drainRounds gen (fuel + 1) (t :: rest)
          = ((t :: rest) :: (drainRounds gen fuel ((t :: rest).flatMap gen)).1,
             (drainRounds gen fuel ((t :: rest).flatMap gen)).2) := by
        simp [drainRounds]
      have hfst : (drainRounds gen (fuel + 1) (t :: rest)).1
          = (t :: rest) :: (drainRounds gen fuel ((t :: rest).flatMap gen)).1 := by
        rw [hd]
      have hsnd : (drainRounds gen (fuel + 1) (t :: rest)).2
          = (drainRounds gen fuel ((t :: rest).flatMap gen)).2 := by
        rw [hd]
      obtain ⟨ih1, ih2, ih3⟩ := ih ((t :: rest).flatMap gen)
      refine ⟨fun _ _ => by rw [hfst]; rfl, ?_, ?_⟩
      · intro i r1 r2 h1 h2
        rw [hfst] at h1 h2
        cases i with
        | zero =>
          rw [List.getElem?_cons_zero, Option.some_inj] at h1
          rw [List.getElem?_cons_succ] at h2
          subst h1
          have hh : (drainRounds gen fuel ((t :: rest).flatMap gen)).1.head? = some r2 := by
            rw [List.head?_eq_getElem?]
            exact h2
          exact drainRounds_head gen fuel ((t :: rest).flatMap gen) r2 hh
        | succ i =>
          rw [List.getElem?_cons_succ] at h1 h2
          exact ih2 i r1 r2 h1 h2
      · intro hdone
        rw [hsnd] at hdone
        rcases ih3 hdone with hnil | ⟨last, hlast, hgen⟩
        · right
          refine ⟨t :: rest, ?_, ?_⟩
          · rw [hfst, hnil]
            rfl
          · have heq : drainRounds gen fuel ((t :: rest).flatMap gen) = ([], []) := by
              rw [Prod.ext_iff]
              exact ⟨hnil, hdone⟩
            exact drainRounds_nil gen fuel ((t :: rest).flatMap gen) heq
        · right
          refine ⟨last, ?_, hgen⟩
          have hne : (drainRounds gen fuel ((t :: rest).flatMap gen)).1 ≠ [] := by
            intro hcon
            rw [hcon] at hlast
            simp at hlast
          rw [hfst, getLast?_cons_of_ne_nil hne]
          exact hlast

/-- Witness for C5: the worklist seeded with ecosystem 0, whose processing
appends ecosystem 1, which appends nothing: round one is the seed, round
two is exactly the tasks appended by round one, and the completed run ends
with a round that appended nothing. -/
theorem collect_worklist_rounds_witness :
    (drainRounds genEx 3 [0]).1.head? = some [0]
    ∧ ([1] : List Nat) = [0].flatMap genEx
    ∧ ((drainRounds genEx 3 [0]).1 = []
        ∨ ∃ last, (drainRounds genEx 3 [0]).1.getLast? = some last
            ∧ last.flatMap genEx = []) := by
  have h := collect_worklist_rounds genEx 3 [0]
  refine ⟨h.1 (by decide) (by decide), ?_, h.2.2 (by decide)⟩
  exact h.2.1 0 [0] [1] (by decide) (by decide)

end RegistryCrawler
